import Mathlib

/-
Shallow embedding of the PromptBuilder answer-collection core
(src/frontend/src/App.tsx): the answer store, the cleaning helper,
schema-load initialization, required-field validation, the multi-select
toggle, and the sequential auto-fill orchestrator.

Modelling conventions:
* A JS object `Record<string, any>` is modelled as an insertion-ordered
  association list `List (String × Value)`; the object-spread update
  `{...prev, [id]: v}` keeps an existing key at its position and appends a
  new key at the end, which `setKey` mirrors.
* The dynamic (`any`) answer values are modelled by the inductive `Value`
  covering every shape the app produces or tests for: strings, numeric
  values (modelled as integers), booleans, `null`, `undefined`, and arrays
  of strings.
* Remote calls are modelled by `Except String` results supplied as inputs;
  the suggestion collaborator is a function from the question and the
  cleaned current answers to such a result.
* The cooperative-scheduling interleaving of user edits with the auto-fill
  loop is modelled by an `edits` schedule: `edits i` is the list of
  `setAnswer`-style writes the user performs on the live store while the
  suggestion call for schema index `i` is in flight (the only suspension
  points inside the loop).
-/

namespace PromptBuilder

/-- The `QuestionType` union from src/frontend/src/api.ts. -/
inductive QuestionType where
  | text
  | textarea
  | single_select
  | multi_select
  | boolean
  | number
deriving DecidableEq, Repr

/-- Answer values: the shapes of `any` the app produces or inspects.
Numeric values are modelled as integers. -/
inductive Value where
  | vStr : String → Value
  | vNum : Int → Value
  | vBool : Bool → Value
  | vNull : Value
  | vUndef : Value
  | vArr : List String → Value
deriving DecidableEq, Repr

/-- The `Question` record from src/frontend/src/api.ts; `type` is renamed
`qtype`. The display-only `placeholder` field is carried for fidelity. -/
structure Question where
  id : String
  qtype : QuestionType
  question : String
  required : Bool
  placeholder : Option String
  choices : Option (List String)
deriving DecidableEq, Repr

/-- The `answers` object: `Record<string, any>` as an insertion-ordered
association list. -/
abbrev Store := List (String × Value)

/-- Property read `answers[id]`: `none` models `undefined` for an absent key. -/
def lookupStore : Store → String → Option Value
  | [], _ => none
  | (k, w) :: rest, id => if k = id then some w else lookupStore rest id

/-- The object-spread update `{...prev, [id]: v}`: an existing key keeps its
position with the new value, a new key is appended at the end. -/
def setKey : Store → String → Value → Store
  | [], id, v => [(id, v)]
  | (k, w) :: rest, id, v =>
      if k = id then (id, v) :: rest else (k, w) :: setKey rest id v

/-- The filter predicate inside `cleanAnswers`:
`Array.isArray(v) ? v.length > 0 : v !== "" && v !== null && v !== undefined`. -/
def keepVal : Value → Bool
  | .vArr xs => decide (0 < xs.length)
  | .vStr s => decide (s ≠ "")
  | .vNull => false
  | .vUndef => false
  | .vNum _ => true
  | .vBool _ => true

/-- `cleanAnswers` from App.tsx: drop entries whose value is an empty array,
the empty string, `null`, or `undefined`; keep everything else unchanged. -/
def cleanAnswers (answers : Store) : Store :=
  answers.filter (fun p => keepVal p.2)

/-- The per-type initial value seeded by `onGenerateQuestions`:
`[]` for multi_select, `null` for boolean, `""` otherwise. -/
def emptySentinel : QuestionType → Value
  | .multi_select => .vArr []
  | .boolean => .vNull
  | _ => .vStr ""

/-- The initialization loop of `onGenerateQuestions`: starting from the empty
object, assign each question its empty sentinel in schema order. -/
def initAnswers (questions : List Question) : Store :=
  questions.foldl (fun initial q => setKey initial q.id (emptySentinel q.qtype)) []

/-- The pieces of React state of `App` that the specified core touches. -/
structure AppState where
  questions : List Question
  answers : Store
  finalPrompt : String
  autoFillProgress : Nat × Nat
  error : Option String
deriving DecidableEq, Repr

/-- `onGenerateQuestions` from App.tsx, with the remote result supplied as an
input. The handler clears error, questions, answers, and prompt
synchronously before the fetch; on success it installs the fetched schema
and the seeded store, on failure it records the message. -/
def onGenerateQuestions (s : AppState) (fetched : Except String (List Question)) :
    AppState :=
  let s1 : AppState :=
    { s with error := none, questions := [], answers := [], finalPrompt := "" }
  match fetched with
  | .ok qs => { s1 with questions := qs, answers := initAnswers qs }
  | .error msg => { s1 with error := some msg }

/-- `onGeneratePrompt` from App.tsx, with the remote result supplied as an
input; it clears error and prompt first and never touches questions or
answers. -/
def onGeneratePrompt (s : AppState) (fetched : Except String String) : AppState :=
  let s1 : AppState := { s with error := none, finalPrompt := "" }
  match fetched with
  | .ok p => { s1 with finalPrompt := p }
  | .error msg => { s1 with error := some msg }

/-- `setAnswer` from App.tsx: `setAnswers(prev => ({...prev, [id]: value}))`. -/
def setAnswer (answers : Store) (id : String) (value : Value) : Store :=
  setKey answers id value

/-- The `current` binding inside `toggleMulti`:
`Array.isArray(prev[id]) ? prev[id] : []`. -/
def currentMulti (answers : Store) (id : String) : List String :=
  match lookupStore answers id with
  | some (.vArr xs) => xs
  | _ => []

/-- `toggleMulti` from App.tsx: remove `choice` if present
(`current.filter(c => c !== choice)`), append it if absent. -/
def toggleMulti (answers : Store) (id choice : String) : Store :=
  let current := currentMulti answers id
  let next :=
    if choice ∈ current then current.filter (fun c => c != choice)
    else current ++ [choice]
  setKey answers id (.vArr next)

/-- JS `String(v)` on the value shapes of this app. -/
def jsToString : Value → String
  | .vStr s => s
  | .vNum n => toString n
  | .vBool b => if b then "true" else "false"
  | .vNull => "null"
  | .vUndef => "undefined"
  | .vArr xs => String.intercalate "," xs

/-- JS `String.prototype.trim`, modelled executably over the character list
(whitespace modelled by `Char.isWhitespace`): drop leading and trailing
whitespace. -/
def jsTrim (s : String) : String :=
  ⟨((s.data.dropWhile Char.isWhitespace).reverse.dropWhile Char.isWhitespace).reverse⟩

/-- The per-question branch body of the `requiredMissing` loop, as a function
of the question's type and its stored value (`undefined` for an absent key):
multi_select is missing when the value is not an array or has length 0;
boolean is never missing; every other type is missing when the value is
`null`/`undefined` or `String(val).trim() === ""`. -/
def isMissingCode (t : QuestionType) (v : Option Value) : Bool :=
  match t with
  | .multi_select =>
      match v with
      | some (.vArr xs) => decide (xs.length = 0)
      | _ => true
  | .boolean => false
  | _ =>
      match v with
      | none => true
      | some .vNull => true
      | some .vUndef => true
      | some w => decide (jsTrim (jsToString w) = "")

/-- The `requiredMissing` memo from App.tsx: walk the schema in order and
collect the ids of required questions whose stored value is missing per
`isMissingCode`. -/
def requiredMissing : List Question → Store → List String
  | [], _ => []
  | q :: rest, answers =>
      (if q.required && isMissingCode q.qtype (lookupStore answers q.id)
       then [q.id] else [])
      ++ requiredMissing rest answers

/-- The `hasValue` test of the auto-fill loop for non-boolean questions:
`(Array.isArray(e) && e.length > 0) || (!Array.isArray(e) && e !== "" && e !== null && e !== undefined)`. -/
def hasValueOpt : Option Value → Bool
  | some (.vArr xs) => decide (0 < xs.length)
  | some (.vStr s) => decide (s ≠ "")
  | some .vNull => false
  | some .vUndef => false
  | some (.vNum _) => true
  | some (.vBool _) => true
  | none => false

/-- The full `hasValue` test: boolean questions are always treated as not
answered (auto-fill always overwrites them). -/
def hasValueQ (t : QuestionType) (v : Option Value) : Bool :=
  match t with
  | .boolean => false
  | _ => hasValueOpt v

/-- Everything one auto-fill run leaves behind: the final live store, the
orchestrator's final working copy, the suggestion calls issued in order
(each with its `current_answers` argument), the `setAutoFillProgress`
reports in order, and the error slot. -/
structure RunOutcome where
  live : Store
  working : Store
  calls : List (Question × Store)
  progress : List (Nat × Nat)
  error : Option String
deriving DecidableEq, Repr

/-- Fold a list of `{id, value}` writes into a store with `setKey`. -/
def mergeAll (base : Store) (results : List (String × Value)) : Store :=
  results.foldl (fun acc r => setKey acc r.1 r.2) base

/-- The `for` loop of `onAutoFillAll`. `working`/`live` are `workingAnswers`
and the live React `answers`; while the call for index `i` is in flight the
user's writes `edits i` land on the live store only; a successful merge
executes `workingAnswers = {...workingAnswers, [res.id]: res.value}` followed
by `setAnswers(workingAnswers)`, which replaces the live store wholesale. -/
def autoFillGo (suggest : Question → Store → Except String (String × Value))
    (edits : Nat → List (String × Value)) (total : Nat) :
    List Question → Nat → Store → Store → RunOutcome
  | [], _, working, live => ⟨live, working, [], [], none⟩
  | q :: rest, i, working, live =>
      if hasValueQ q.qtype (lookupStore working q.id) then
        let r := autoFillGo suggest edits total rest (i + 1) working live
        { r with progress := (i + 1, total) :: r.progress }
      else
        let arg := cleanAnswers working
        let live1 := mergeAll live (edits i)
        match suggest q arg with
        | .error msg => ⟨live1, working, [(q, arg)], [], some msg⟩
        | .ok rv =>
            let working1 := setKey working rv.1 rv.2
            let r := autoFillGo suggest edits total rest (i + 1) working1 working1
            { r with calls := (q, arg) :: r.calls,
                     progress := (i + 1, total) :: r.progress }

/-- The edit schedule of a run with no concurrent user activity. -/
def noEdits : Nat → List (String × Value) := fun _ => []

/-- `onAutoFillAll` from App.tsx: a no-op (`none`) when the trimmed idea is
empty or the schema is empty; otherwise it reports `{done: 0, total: N}`,
snapshots the live store into `workingAnswers`, and runs the loop. -/
def onAutoFillAll (idea : String) (questions : List Question) (answers : Store)
    (suggest : Question → Store → Except String (String × Value))
    (edits : Nat → List (String × Value)) : Option RunOutcome :=
  if jsTrim idea = "" || questions.isEmpty then none
  else
    let r := autoFillGo suggest edits questions.length questions 0 answers answers
    some { r with progress := (0, questions.length) :: r.progress }

/-- The successful `{id, value}` results of a run's calls, in call order,
recovered by re-applying the (deterministic) collaborator to each recorded
call. -/
def runResults (suggest : Question → Store → Except String (String × Value))
    (calls : List (Question × Store)) : List (String × Value) :=
  calls.filterMap (fun c => (suggest c.1 c.2).toOption)

/-- The suggestion call sequence as the specification describes it: walk the
schema strictly in order; each call receives the cleaned cumulative answers,
a success merges the returned `{id, value}` before the next call, and a
failure stops issuance after the failing call. Written from the spec's
words for comparison with the loop extracted from the source. -/
def specCallSequence (suggest : Question → Store → Except String (String × Value)) :
    List Question → Store → List (Question × Store)
  | [], _ => []
  | q :: rest, acc =>
      let arg := cleanAnswers acc
      match suggest q arg with
      | .error _ => [(q, arg)]
      | .ok rv => (q, arg) :: specCallSequence suggest rest (setKey acc rv.1 rv.2)

/-! ### Basic store lemmas -/

theorem lookupStore_setKey_self (a : Store) (id : String) (v : Value) :
    lookupStore (setKey a id v) id = some v := by
  induction a with
  | nil => simp [setKey, lookupStore]
  | cons p rest ih =>
      obtain ⟨k, w⟩ := p
      by_cases h : k = id
      · subst h; simp [setKey, lookupStore]
      · simp [setKey, lookupStore, h, ih]

theorem lookupStore_setKey_ne (a : Store) (id k : String) (v : Value)
    (h : k ≠ id) : lookupStore (setKey a id v) k = lookupStore a k := by
  have hid : id ≠ k := fun hh => h hh.symm
  induction a with
  | nil => simp [setKey, lookupStore, hid]
  | cons p rest ih =>
      obtain ⟨k', w⟩ := p
      by_cases h' : k' = id
      · subst h'
        simp [setKey, lookupStore, hid]
      · simp only [setKey, if_neg h']
        by_cases h2 : k' = k
        · simp [lookupStore, h2]
        · simp [lookupStore, h2, ih]

theorem setKey_eq_append (a : Store) (id : String) (v : Value)
    (h : lookupStore a id = none) : setKey a id v = a ++ [(id, v)] := by
  induction a with
  | nil => rfl
  | cons p rest ih =>
      obtain ⟨k, w⟩ := p
      by_cases hk : k = id
      · simp [lookupStore, hk] at h
      · simp only [lookupStore, hk, if_false, if_neg hk] at h ⊢
        simp [setKey, hk, ih h]

theorem lookupStore_append_of_none (a b : Store) (k : String)
    (h : lookupStore a k = none) : lookupStore (a ++ b) k = lookupStore b k := by
  induction a with
  | nil => rfl
  | cons p rest ih =>
      obtain ⟨k', w⟩ := p
      by_cases hk : k' = k
      · simp [lookupStore, hk] at h
      · simp only [lookupStore, hk, if_neg hk, List.cons_append] at h ⊢
        exact ih h

theorem mergeAll_nil (base : Store) : mergeAll base [] = base := rfl

theorem mergeAll_cons (base : Store) (r : String × Value)
    (rs : List (String × Value)) :
    mergeAll base (r :: rs) = mergeAll (setKey base r.1 r.2) rs := rfl

/-! ### C5: the cleaned view strips exactly the empty sentinels -/

/-- An empty-sentinel value as claim C5 words it: a zero-length collection,
the empty string, null, or undefined. -/
def isEmptyVal : Value → Bool
  | .vArr xs => decide (xs.length = 0)
  | .vStr s => decide (s = "")
  | .vNull => true
  | .vUndef => true
  | .vNum _ => false
  | .vBool _ => false

theorem keepVal_eq_not_isEmptyVal (v : Value) : keepVal v = !isEmptyVal v := by
  cases v <;> simp [keepVal, isEmptyVal, Nat.pos_iff_ne_zero]

/-- C5: for every store contents, `cleanAnswers` contains an entry iff the
store contains it and its value is not an empty sentinel (zero-length
collection, empty string, null, or undefined); kept entries keep their
value unchanged. -/
theorem cleanAnswers_mem_iff (a : Store) (k : String) (v : Value) :
    (k, v) ∈ cleanAnswers a ↔ ((k, v) ∈ a ∧ isEmptyVal v = false) := by
  simp [cleanAnswers, List.mem_filter, keepVal_eq_not_isEmptyVal]

/-! ### C1: what a schema-load or prompt failure leaves behind -/

/-- A text question used in the concrete scenarios below. -/
def qText (id : String) : Question :=
  ⟨id, .text, "q", true, none, none⟩

/-- A state holding a previously loaded schema with answers and a prompt. -/
def c1state : AppState :=
  { questions := [qText "q0"], answers := [("q0", .vStr "old")],
    finalPrompt := "p", autoFillProgress := (0, 0), error := none }

/-- C1 counterexample: when `fetchQuestionSchema` fails during a schema load,
the previously loaded schema and answers are NOT still present: the handler
cleared them synchronously before the fetch, so the failed load ends with an
empty schema and an empty store. -/
theorem loadSchema_failure_clears_previous_state :
    (onGenerateQuestions c1state (Except.error "boom")).questions = []
    ∧ (onGenerateQuestions c1state (Except.error "boom")).answers = []
    ∧ c1state.questions ≠ [] ∧ c1state.answers ≠ [] := by
  refine ⟨rfl, rfl, ?_, ?_⟩ <;> simp [c1state]

/-- C1 (amended): a remote-call failure aborts the enclosing operation with
the error recorded and no retry; a prompt-generation failure leaves the
schema and answers intact, but a schema-load failure leaves the schema,
answers, and prompt cleared (the handler resets them before fetching), with
only auto-fill progress untouched. -/
theorem remote_failure_abort_behavior (s : AppState) (msg : String) :
    (onGenerateQuestions s (Except.error msg)).questions = []
    ∧ (onGenerateQuestions s (Except.error msg)).answers = []
    ∧ (onGenerateQuestions s (Except.error msg)).finalPrompt = ""
    ∧ (onGenerateQuestions s (Except.error msg)).error = some msg
    ∧ (onGenerateQuestions s (Except.error msg)).autoFillProgress = s.autoFillProgress
    ∧ (onGeneratePrompt s (Except.error msg)).questions = s.questions
    ∧ (onGeneratePrompt s (Except.error msg)).answers = s.answers
    ∧ (onGeneratePrompt s (Except.error msg)).finalPrompt = ""
    ∧ (onGeneratePrompt s (Except.error msg)).error = some msg :=
  ⟨rfl, rfl, rfl, rfl, rfl, rfl, rfl, rfl, rfl⟩

/-! ### C4: schema load seeds exactly one sentinel entry per question -/

theorem initAnswers_foldl_eq (qs : List Question) :
    ∀ acc : Store,
      (∀ q ∈ qs, lookupStore acc q.id = none) →
      (qs.map Question.id).Nodup →
      qs.foldl (fun initial q => setKey initial q.id (emptySentinel q.qtype)) acc
        = acc ++ qs.map (fun q => (q.id, emptySentinel q.qtype)) := by
  induction qs with
  | nil => intro acc _ _; simp
  | cons q rest ih =>
      intro acc hfresh hnd
      have h1 : lookupStore acc q.id = none := hfresh q (by simp)
      have hhead : q.id ∉ rest.map Question.id := by
        have := hnd
        simp only [List.map_cons, List.nodup_cons] at this
        exact this.1
      have htail : (rest.map Question.id).Nodup := by
        have := hnd
        simp only [List.map_cons, List.nodup_cons] at this
        exact this.2
      rw [List.foldl_cons, setKey_eq_append acc q.id _ h1, ih _ ?_ htail]
      · simp
      · intro q' hq'
        have hne : q.id ≠ q'.id := by
          intro hcontra
          exact hhead (hcontra ▸ List.mem_map_of_mem Question.id hq')
        rw [lookupStore_append_of_none _ _ _ (hfresh q' (List.mem_cons_of_mem q hq'))]
        simp [lookupStore, hne]

theorem initAnswers_eq (qs : List Question)
    (hnd : (qs.map Question.id).Nodup) :
    initAnswers qs = qs.map (fun q => (q.id, emptySentinel q.qtype)) := by
  have h := initAnswers_foldl_eq qs [] (fun q _ => rfl) hnd
  simpa [initAnswers] using h

theorem lookup_map_pairs (f : Question → Value) :
    ∀ (qs : List Question) (q : Question), q ∈ qs → (qs.map Question.id).Nodup →
      lookupStore (qs.map (fun q' => (q'.id, f q'))) q.id = some (f q) := by
  intro qs
  induction qs with
  | nil => intro q hq; cases hq
  | cons q0 rest ih =>
      intro q hq hnd
      have hhead : q0.id ∉ rest.map Question.id := by
        simp only [List.map_cons, List.nodup_cons] at hnd
        exact hnd.1
      have htail : (rest.map Question.id).Nodup := by
        simp only [List.map_cons, List.nodup_cons] at hnd
        exact hnd.2
      rcases List.mem_cons.mp hq with rfl | hq'
      · simp [lookupStore]
      · have hne : q0.id ≠ q.id := by
          intro hcontra
          exact hhead (hcontra ▸ List.mem_map_of_mem Question.id hq')
        simp [lookupStore, hne, ih q hq' htail]

/-- C4: immediately after a successful schema load the store is exactly one
entry per question, in schema order, each seeded with that type's empty
sentinel ([] for multi_select, null for boolean, "" otherwise) — whatever
the store held before is fully replaced. -/
theorem loadSchema_seeds_sentinels (s : AppState) (qs : List Question)
    (hnd : (qs.map Question.id).Nodup) :
    (onGenerateQuestions s (Except.ok qs)).answers
        = qs.map (fun q => (q.id, emptySentinel q.qtype))
    ∧ ∀ q ∈ qs,
        lookupStore (onGenerateQuestions s (Except.ok qs)).answers q.id
          = some (emptySentinel q.qtype) := by
  have hans : (onGenerateQuestions s (Except.ok qs)).answers = initAnswers qs := rfl
  rw [hans, initAnswers_eq qs hnd]
  exact ⟨rfl, fun q hq => lookup_map_pairs _ qs q hq hnd⟩

/-- A concrete three-question schema exercising all three sentinel shapes. -/
def c4qs : List Question :=
  [⟨"q1", .text, "a", true, none, none⟩,
   ⟨"q2", .multi_select, "b", true, none, some ["x", "y"]⟩,
   ⟨"q3", .boolean, "c", false, none, none⟩]

theorem loadSchema_seeds_sentinels_witness :
    (onGenerateQuestions c1state (Except.ok c4qs)).answers
      = [("q1", Value.vStr ""), ("q2", Value.vArr []), ("q3", Value.vNull)] :=
  (loadSchema_seeds_sentinels c1state c4qs (by decide)).1

/-! ### C6: the required-field validator -/

/-- The per-type missing condition as claim C6 words it: multi_select is
missing iff the stored value is not a collection or has zero elements;
boolean is never missing; any other type is missing iff the value is
null/absent or its stringified value is empty after trimming. -/
def missingPerSpec (t : QuestionType) (v : Option Value) : Prop :=
  (t = .multi_select ∧ ((¬ ∃ xs, v = some (.vArr xs)) ∨ v = some (.vArr [])))
  ∨ (t ≠ .multi_select ∧ t ≠ .boolean
      ∧ (v = none ∨ v = some .vNull ∨ v = some .vUndef
          ∨ ∃ w, v = some w ∧ jsTrim (jsToString w) = ""))

theorem isMissingCode_iff (t : QuestionType) (v : Option Value) :
    isMissingCode t v = true ↔ missingPerSpec t v := by
  cases t <;> rcases v with _ | w <;> (try cases w) <;>
    simp [isMissingCode, missingPerSpec, List.length_eq_zero]

theorem mem_requiredMissing_imp (a : Store) :
    ∀ (qs : List Question) (id : String),
      id ∈ requiredMissing qs a → id ∈ qs.map Question.id := by
  intro qs
  induction qs with
  | nil => intro id h; cases h
  | cons q rest ih =>
      intro id h
      simp only [requiredMissing, List.mem_append] at h
      simp only [List.map_cons, List.mem_cons]
      rcases h with h | h
      · split at h
        · simp only [List.mem_singleton] at h
          exact Or.inl h
        · cases h
      · exact Or.inr (ih id h)

/-- C6: for every schema with distinct ids and every store, a question's id
is reported by `requiredMissing` iff the question is required and its stored
value satisfies the per-type missing condition: multi_select is missing iff
the value is not a collection or has zero elements, boolean is never
missing, and every other type is missing iff the value is null/absent or
stringifies to whitespace. -/
theorem requiredMissing_characterization (a : Store) :
    ∀ (qs : List Question) (q : Question),
      (qs.map Question.id).Nodup → q ∈ qs →
      (q.id ∈ requiredMissing qs a
        ↔ (q.required = true ∧ missingPerSpec q.qtype (lookupStore a q.id))) := by
  intro qs
  induction qs with
  | nil => intro q _ hq; cases hq
  | cons q0 rest ih =>
      intro q hnd hq
      have hhead : q0.id ∉ rest.map Question.id := by
        simp only [List.map_cons, List.nodup_cons] at hnd
        exact hnd.1
      have htail : (rest.map Question.id).Nodup := by
        simp only [List.map_cons, List.nodup_cons] at hnd
        exact hnd.2
      rcases List.mem_cons.mp hq with rfl | hq'
      · constructor
        · intro h
          simp only [requiredMissing, List.mem_append] at h
          rcases h with h | h
          · split at h
            next hc =>
              rw [Bool.and_eq_true] at hc
              exact ⟨hc.1, (isMissingCode_iff _ _).mp hc.2⟩
            next => cases h
          · exact absurd (mem_requiredMissing_imp a rest q.id h) hhead
        · intro h
          simp only [requiredMissing, List.mem_append]
          left
          rw [if_pos]
          · exact List.mem_singleton.mpr rfl
          · rw [Bool.and_eq_true]
            exact ⟨h.1, (isMissingCode_iff _ _).mpr h.2⟩
      · have hne : q0.id ≠ q.id := fun hcontra =>
          hhead (hcontra ▸ List.mem_map_of_mem Question.id hq')
        have hstep : q.id ∈ requiredMissing (q0 :: rest) a
            ↔ q.id ∈ requiredMissing rest a := by
          simp only [requiredMissing, List.mem_append]
          constructor
          · rintro (h | h)
            · exfalso
              split at h
              · exact hne (List.mem_singleton.mp h).symm
              · cases h
            · exact h
          · exact Or.inr
        rw [hstep]
        exact ih q htail hq'

/-- A required boolean question, exercising the never-missing rule. -/
def c6q : Question := ⟨"q1", .boolean, "c", true, none, none⟩

theorem requiredMissing_characterization_witness :
    c6q.id ∈ requiredMissing [c6q] [("q1", Value.vNull)]
      ↔ (c6q.required = true
          ∧ missingPerSpec c6q.qtype (lookupStore [("q1", Value.vNull)] c6q.id)) :=
  requiredMissing_characterization [("q1", Value.vNull)] [c6q] c6q
    (by decide) (by decide)

/-! ### C8: toggleChoice semantics -/

/-- The `next` computation of `toggleMulti`, on a bare list. -/
def toggleList (xs : List String) (choice : String) : List String :=
  if choice ∈ xs then xs.filter (fun c => c != choice) else xs ++ [choice]

theorem toggleMulti_eq (a : Store) (id choice : String) :
    toggleMulti a id choice
      = setKey a id (.vArr (toggleList (currentMulti a id) choice)) := rfl

theorem currentMulti_setKey_arr (a : Store) (id : String) (xs : List String) :
    currentMulti (setKey a id (.vArr xs)) id = xs := by
  simp [currentMulti, lookupStore_setKey_self]

theorem currentMulti_toggleMulti (a : Store) (id choice : String) :
    currentMulti (toggleMulti a id choice) id
      = toggleList (currentMulti a id) choice := by
  rw [toggleMulti_eq, currentMulti_setKey_arr]

theorem mem_toggleList (xs : List String) (c s : String) :
    s ∈ toggleList xs c ↔ (if s = c then c ∉ xs else s ∈ xs) := by
  by_cases hc : c ∈ xs <;> by_cases hs : s = c <;>
    simp [toggleList, hc, hs, List.mem_filter, bne_iff_ne]

theorem mem_toggleList_twice (xs : List String) (c s : String) :
    s ∈ toggleList (toggleList xs c) c ↔ s ∈ xs := by
  by_cases hs : s = c
  · subst hs
    rw [mem_toggleList, if_pos rfl, mem_toggleList, if_pos rfl, not_not]
  · rw [mem_toggleList, if_neg hs, mem_toggleList, if_neg hs]

theorem nodup_toggleList (xs : List String) (c : String) (h : xs.Nodup) :
    (toggleList xs c).Nodup := by
  by_cases hc : c ∈ xs
  · simp only [toggleList, if_pos hc]
    exact h.filter _
  · simp only [toggleList, if_neg hc]
    rw [List.nodup_append]
    refine ⟨h, List.nodup_singleton c, ?_⟩
    intro x hx hmem
    rw [List.mem_singleton] at hmem
    exact hc (hmem ▸ hx)

/-- C8: viewing a store value through the code's own collection coercion
(`currentMulti`: a non-collection counts as empty), toggling the same
`(id, choice)` twice returns the multi-select value to its prior state
(same members); one toggle adds `choice` iff it was absent, leaves other
members unchanged, and never introduces duplicates. -/
theorem toggleMulti_properties (a : Store) (id choice : String)
    (hnd : (currentMulti a id).Nodup) :
    (∀ s, s ∈ currentMulti (toggleMulti (toggleMulti a id choice) id choice) id
        ↔ s ∈ currentMulti a id)
    ∧ (choice ∈ currentMulti (toggleMulti a id choice) id
        ↔ choice ∉ currentMulti a id)
    ∧ (∀ s, s ≠ choice →
        (s ∈ currentMulti (toggleMulti a id choice) id ↔ s ∈ currentMulti a id))
    ∧ (currentMulti (toggleMulti a id choice) id).Nodup := by
  refine ⟨?_, ?_, ?_, ?_⟩
  · intro s
    rw [currentMulti_toggleMulti, currentMulti_toggleMulti, mem_toggleList_twice]
  · rw [currentMulti_toggleMulti, mem_toggleList, if_pos rfl]
  · intro s hs
    rw [currentMulti_toggleMulti, mem_toggleList, if_neg hs]
  · rw [currentMulti_toggleMulti]
    exact nodup_toggleList _ _ hnd

theorem toggleMulti_properties_witness :
    "a" ∈ currentMulti
        (toggleMulti (toggleMulti [("q1", Value.vArr ["a"])] "q1" "a") "q1" "a") "q1"
      ↔ "a" ∈ currentMulti [("q1", Value.vArr ["a"])] "q1" :=
  (toggleMulti_properties [("q1", Value.vArr ["a"])] "q1" "a" (by decide)).1 "a"

/-! ### General lemmas about the auto-fill loop -/

theorem hasValueQ_eq_false (t : QuestionType) (v : Option Value)
    (h : hasValueOpt v = false) : hasValueQ t v = false := by
  cases t <;> simp [hasValueQ, h]

theorem runResults_cons_ok (suggest : Question → Store → Except String (String × Value))
    (q : Question) (st : Store) (rv : String × Value)
    (h : suggest q st = Except.ok rv) (cs : List (Question × Store)) :
    runResults suggest ((q, st) :: cs) = rv :: runResults suggest cs := by
  simp [runResults, List.filterMap_cons, h, Except.toOption]

theorem runResults_cons_error (suggest : Question → Store → Except String (String × Value))
    (q : Question) (st : Store) (msg : String)
    (h : suggest q st = Except.error msg) (cs : List (Question × Store)) :
    runResults suggest ((q, st) :: cs) = runResults suggest cs := by
  simp [runResults, List.filterMap_cons, h, Except.toOption]

/-- With no concurrent edits, the live store tracks the working copy: every
successful merge writes the working copy back over the live store. -/
theorem autoFillGo_live_eq_working
    (suggest : Question → Store → Except String (String × Value)) (total : Nat) :
    ∀ (qs : List Question) (i : Nat) (working : Store),
      (autoFillGo suggest noEdits total qs i working working).live
        = (autoFillGo suggest noEdits total qs i working working).working := by
  intro qs
  induction qs with
  | nil => intro i w; rfl
  | cons q rest ih =>
      intro i w
      simp only [autoFillGo]
      split
      · simpa using ih (i + 1) w
      · cases hsg : suggest q (cleanAnswers w) with
        | error msg => simp [noEdits, mergeAll]
        | ok rv => simpa using ih (i + 1) (setKey w rv.1 rv.2)

/-- The final working copy is the initial one plus the successful merges, in
call order. -/
theorem autoFillGo_working_eq_mergeAll
    (suggest : Question → Store → Except String (String × Value))
    (edits : Nat → List (String × Value)) (total : Nat) :
    ∀ (qs : List Question) (i : Nat) (working live : Store),
      (autoFillGo suggest edits total qs i working live).working
        = mergeAll working
            (runResults suggest (autoFillGo suggest edits total qs i working live).calls) := by
  intro qs
  induction qs with
  | nil => intro i w l; rfl
  | cons q rest ih =>
      intro i w l
      simp only [autoFillGo]
      split
      · simpa using ih (i + 1) w l
      · cases hsg : suggest q (cleanAnswers w) with
        | error msg =>
            have h0 : runResults suggest [(q, cleanAnswers w)] = [] := by
              rw [runResults_cons_error suggest q _ msg hsg]
              rfl
            simp [h0, mergeAll]
        | ok rv =>
            have h := ih (i + 1) (setKey w rv.1 rv.2) (setKey w rv.1 rv.2)
            simpa [runResults_cons_ok suggest q _ rv hsg, mergeAll_cons] using h

/-- When every suggestion succeeds, the loop never records an error. -/
theorem autoFillGo_error_none
    (suggest : Question → Store → Except String (String × Value))
    (edits : Nat → List (String × Value)) (total : Nat)
    (hs : ∀ q st, ∃ rv, suggest q st = Except.ok rv) :
    ∀ (qs : List Question) (i : Nat) (working live : Store),
      (autoFillGo suggest edits total qs i working live).error = none := by
  intro qs
  induction qs with
  | nil => intro i w l; rfl
  | cons q rest ih =>
      intro i w l
      simp only [autoFillGo]
      split
      · simpa using ih (i + 1) w l
      · obtain ⟨rv, hsg⟩ := hs q (cleanAnswers w)
        rw [hsg]
        simpa using ih (i + 1) (setKey w rv.1 rv.2) (setKey w rv.1 rv.2)

/-- The loop's progress reports are always `i+1, i+2, ...` paired with the
fixed total, one per processed question, reaching the schema length exactly
when no error occurred. -/
theorem autoFillGo_progress_shape
    (suggest : Question → Store → Except String (String × Value))
    (edits : Nat → List (String × Value)) (total : Nat) :
    ∀ (qs : List Question) (i : Nat) (working live : Store),
      ∃ j, j ≤ qs.length
        ∧ (autoFillGo suggest edits total qs i working live).progress
            = (List.range' (i + 1) j).map (fun d => (d, total))
        ∧ ((autoFillGo suggest edits total qs i working live).error = none
            → j = qs.length) := by
  intro qs
  induction qs with
  | nil => intro i w l; exact ⟨0, by simp, rfl, fun _ => rfl⟩
  | cons q rest ih =>
      intro i w l
      simp only [autoFillGo]
      split
      · obtain ⟨j, hj, hp, he⟩ := ih (i + 1) w l
        refine ⟨j + 1, by simpa using Nat.succ_le_succ hj, ?_, ?_⟩
        · simp only [List.range'_succ, List.map_cons]
          simpa using hp
        · intro h
          have := he (by simpa using h)
          simpa using this
      · cases hsg : suggest q (cleanAnswers w) with
        | error msg =>
            refine ⟨0, by simp, by simp, ?_⟩
            intro h
            simp at h
        | ok rv =>
            obtain ⟨j, hj, hp, he⟩ := ih (i + 1) (setKey w rv.1 rv.2) (setKey w rv.1 rv.2)
            refine ⟨j + 1, by simpa using Nat.succ_le_succ hj, ?_, ?_⟩
            · simp only [List.range'_succ, List.map_cons]
              simpa using hp
            · intro h
              have := he (by simpa using h)
              simpa using this

/-- Under the clean-run hypotheses (distinct ids, initially unanswered,
collaborator answering the asked question), the loop's recorded calls are
exactly the specification's sequential cumulative call sequence. -/
theorem autoFillGo_calls_eq_spec
    (suggest : Question → Store → Except String (String × Value))
    (edits : Nat → List (String × Value)) (total : Nat)
    (hmatch : ∀ q st rv, suggest q st = Except.ok rv → rv.1 = q.id) :
    ∀ (qs : List Question) (i : Nat) (working live : Store),
      (qs.map Question.id).Nodup →
      (∀ q ∈ qs, hasValueOpt (lookupStore working q.id) = false) →
      (autoFillGo suggest edits total qs i working live).calls
        = specCallSequence suggest qs working := by
  intro qs
  induction qs with
  | nil => intro i w l _ _; rfl
  | cons q rest ih =>
      intro i w l hnd hun
      have hhv : hasValueQ q.qtype (lookupStore w q.id) = false :=
        hasValueQ_eq_false _ _ (hun q (by simp))
      simp only [autoFillGo, specCallSequence]
      rw [if_neg (by simp [hhv])]
      cases hsg : suggest q (cleanAnswers w) with
      | error msg => simp
      | ok rv =>
          have hid : rv.1 = q.id := hmatch q _ rv hsg
          have hhead : q.id ∉ rest.map Question.id := by
            simp only [List.map_cons, List.nodup_cons] at hnd
            exact hnd.1
          have htail : (rest.map Question.id).Nodup := by
            simp only [List.map_cons, List.nodup_cons] at hnd
            exact hnd.2
          have hun' : ∀ q' ∈ rest,
              hasValueOpt (lookupStore (setKey w rv.1 rv.2) q'.id) = false := by
            intro q' hq'
            have hne : q'.id ≠ rv.1 := by
              rw [hid]
              intro hcontra
              exact hhead (hcontra ▸ List.mem_map_of_mem Question.id hq')
            rw [lookupStore_setKey_ne _ _ _ _ hne]
            exact hun q' (List.mem_cons_of_mem q hq')
          simpa using ih (i + 1) (setKey w rv.1 rv.2) (setKey w rv.1 rv.2) htail hun'

/-- Unfolding of `onAutoFillAll` when its entry preconditions hold. -/
theorem onAutoFillAll_eq_some (idea : String) (qs : List Question) (answers : Store)
    (suggest : Question → Store → Except String (String × Value))
    (edits : Nat → List (String × Value))
    (hidea : jsTrim idea ≠ "") (hne : qs ≠ []) :
    onAutoFillAll idea qs answers suggest edits
      = some { autoFillGo suggest edits qs.length qs 0 answers answers with
               progress := (0, qs.length)
                 :: (autoFillGo suggest edits qs.length qs 0 answers answers).progress } := by
  unfold onAutoFillAll
  rw [if_neg (by simp [hidea, hne])]

/-- A run that succeeds for the first `k` schema positions and fails at
position `k` records an error, calls exactly questions `0..k`, reports
progress `i+1 .. i+k`, and accumulates exactly `k` successful results. -/
theorem autoFillGo_fail_run
    (suggest : Question → Store → Except String (String × Value)) (total : Nat)
    (hmatch : ∀ q st rv, suggest q st = Except.ok rv → rv.1 = q.id) :
    ∀ (qs : List Question) (k i : Nat) (working : Store),
      (qs.map Question.id).Nodup →
      (∀ q ∈ qs, hasValueOpt (lookupStore working q.id) = false) →
      ∀ (hk : k < qs.length),
      (∀ j (hj : j < k), ∀ st, ∃ rv,
          suggest (qs.get ⟨j, Nat.lt_trans hj hk⟩) st = Except.ok rv) →
      (∀ st, ∃ msg, suggest (qs.get ⟨k, hk⟩) st = Except.error msg) →
      (autoFillGo suggest noEdits total qs i working working).error.isSome = true
      ∧ (autoFillGo suggest noEdits total qs i working working).calls.map Prod.fst
          = qs.take (k + 1)
      ∧ (autoFillGo suggest noEdits total qs i working working).progress
          = (List.range' (i + 1) k).map (fun d => (d, total))
      ∧ (runResults suggest
            (autoFillGo suggest noEdits total qs i working working).calls).length = k := by
  intro qs
  induction qs with
  | nil =>
      intro k i w _ _ hk
      exact absurd hk (by simp)
  | cons q rest ih =>
      intro k i w hnd hun hk hsucc hfail
      have hhv : hasValueQ q.qtype (lookupStore w q.id) = false :=
        hasValueQ_eq_false _ _ (hun q (by simp))
      have hhead : q.id ∉ rest.map Question.id := by
        simp only [List.map_cons, List.nodup_cons] at hnd
        exact hnd.1
      have htail : (rest.map Question.id).Nodup := by
        simp only [List.map_cons, List.nodup_cons] at hnd
        exact hnd.2
      simp only [autoFillGo]
      rw [if_neg (by simp [hhv])]
      cases k with
      | zero =>
          obtain ⟨msg, hsg0⟩ := hfail (cleanAnswers w)
          have hsg : suggest q (cleanAnswers w) = Except.error msg := hsg0
          rw [hsg]
          refine ⟨rfl, by simp, by simp, ?_⟩
          rw [runResults_cons_error suggest q _ msg hsg]
          rfl
      | succ k' =>
          obtain ⟨rv, hsg0⟩ := hsucc 0 (Nat.succ_pos k') (cleanAnswers w)
          have hsg : suggest q (cleanAnswers w) = Except.ok rv := hsg0
          have hid : rv.1 = q.id := hmatch _ _ _ hsg
          have hun' : ∀ q' ∈ rest,
              hasValueOpt (lookupStore (setKey w rv.1 rv.2) q'.id) = false := by
            intro q' hq'
            have hne : q'.id ≠ rv.1 := by
              rw [hid]
              intro hcontra
              exact hhead (hcontra ▸ List.mem_map_of_mem Question.id hq')
            rw [lookupStore_setKey_ne _ _ _ _ hne]
            exact hun q' (List.mem_cons_of_mem q hq')
          have hk' : k' < rest.length := Nat.lt_of_succ_lt_succ hk
          have hsucc' : ∀ j (hj : j < k'), ∀ st, ∃ rv',
              suggest (rest.get ⟨j, Nat.lt_trans hj hk'⟩) st = Except.ok rv' :=
            fun j hj st => hsucc (j + 1) (Nat.succ_lt_succ hj) st
          have hfail' : ∀ st, ∃ msg,
              suggest (rest.get ⟨k', hk'⟩) st = Except.error msg := hfail
          obtain ⟨e1, e2, e3, e4⟩ :=
            ih k' (i + 1) (setKey w rv.1 rv.2) htail hun' hk' hsucc' hfail'
          rw [hsg]
          refine ⟨by simpa using e1, ?_, ?_, ?_⟩
          · simpa using e2
          · simp only [List.range'_succ, List.map_cons]
            simpa using e3
          · have hc : runResults suggest
                ((q, cleanAnswers w)
                  :: (autoFillGo suggest noEdits total rest (i + 1)
                        (setKey w rv.1 rv.2) (setKey w rv.1 rv.2)).calls)
                = rv :: runResults suggest
                    (autoFillGo suggest noEdits total rest (i + 1)
                      (setKey w rv.1 rv.2) (setKey w rv.1 rv.2)).calls :=
              runResults_cons_ok suggest q _ rv hsg _
            simpa [hc] using e4

theorem getLastD_range'_map (t : Nat) :
    ∀ (k s : Nat),
      ((List.range' (s + 1) k).map (fun d => (d, t))).getLastD (s, t) = (s + k, t) := by
  intro k
  induction k with
  | zero => intro s; simp
  | succ k' ih =>
      intro s
      rw [List.range'_succ]
      simp only [List.map_cons, List.getLastD_cons]
      rw [ih (s + 1)]
      congr 1
      omega

theorem getLast_progress_trace (k t : Nat) :
    (((0, t) :: (List.range' 1 k).map (fun d => (d, t))) : List (Nat × Nat)).getLast?
      = some (k, t) := by
  rw [List.getLast?_cons]
  have h := getLastD_range'_map t k 0
  simpa using h

/-! ### C2: suggestion calls are sequential and cumulative -/

/-- C2: in one auto-fill run over a schema of initially unanswered questions
(distinct ids; collaborator answers the question it was asked), the
suggestion calls recorded by the loop are exactly the specification's
sequential cumulative call sequence: issued strictly in schema order, one at
a time, with each call's current_answers equal to the cleaned working copy
including every value merged from the preceding successful calls. -/
theorem autoFill_calls_sequential_cumulative (idea : String) (qs : List Question)
    (answers : Store)
    (suggest : Question → Store → Except String (String × Value))
    (edits : Nat → List (String × Value))
    (hidea : jsTrim idea ≠ "") (hne : qs ≠ [])
    (hnd : (qs.map Question.id).Nodup)
    (hun : ∀ q ∈ qs, hasValueOpt (lookupStore answers q.id) = false)
    (hmatch : ∀ q st rv, suggest q st = Except.ok rv → rv.1 = q.id) :
    (onAutoFillAll idea qs answers suggest edits).map (fun out => out.calls)
      = some (specCallSequence suggest qs answers) := by
  rw [onAutoFillAll_eq_some idea qs answers suggest edits hidea hne]
  simp [autoFillGo_calls_eq_spec suggest edits qs.length hmatch qs 0 answers answers
    hnd hun]

/-- A three-question schema of unanswered text questions. -/
def w2qs : List Question :=
  [⟨"q1", .text, "a", true, none, none⟩,
   ⟨"q2", .text, "b", true, none, none⟩,
   ⟨"q3", .text, "c", true, none, none⟩]

/-- A collaborator that answers every question it is asked. -/
def w2suggest : Question → Store → Except String (String × Value) :=
  fun q _ => Except.ok (q.id, .vStr ("v" ++ q.id))

theorem autoFill_calls_sequential_cumulative_witness :
    (onAutoFillAll "idea" w2qs (initAnswers w2qs) w2suggest noEdits).map
        (fun out => out.calls)
      = some (specCallSequence w2suggest w2qs (initAnswers w2qs)) :=
  autoFill_calls_sequential_cumulative "idea" w2qs (initAnswers w2qs) w2suggest noEdits
    (by decide) (by decide) (by decide) (by decide)
    (fun q st rv h => by cases h; rfl)

/-! ### C3: failure at question index k -/

/-- C3: for a schema of N unanswered questions with distinct ids, when the
collaborator succeeds on questions 0..k-1 and fails at index k, the run
records an error, issues no call past index k (calls are exactly questions
0..k), reports last progress done = k of total N, and leaves the live store
equal to the initial answers plus exactly the k successful merges. -/
theorem autoFill_failure_halts (idea : String) (qs : List Question)
    (answers : Store)
    (suggest : Question → Store → Except String (String × Value)) (k : Nat)
    (hidea : jsTrim idea ≠ "") (hne : qs ≠ [])
    (hnd : (qs.map Question.id).Nodup)
    (hun : ∀ q ∈ qs, hasValueOpt (lookupStore answers q.id) = false)
    (hmatch : ∀ q st rv, suggest q st = Except.ok rv → rv.1 = q.id)
    (hk : k < qs.length)
    (hsucc : ∀ j (hj : j < k), ∀ st, ∃ rv,
        suggest (qs.get ⟨j, Nat.lt_trans hj hk⟩) st = Except.ok rv)
    (hfail : ∀ st, ∃ msg, suggest (qs.get ⟨k, hk⟩) st = Except.error msg) :
    (onAutoFillAll idea qs answers suggest noEdits).map (fun out => out.error.isSome)
        = some true
    ∧ (onAutoFillAll idea qs answers suggest noEdits).map
          (fun out => out.calls.map Prod.fst)
        = some (qs.take (k + 1))
    ∧ (onAutoFillAll idea qs answers suggest noEdits).map
          (fun out => out.progress.getLast?)
        = some (some (k, qs.length))
    ∧ (onAutoFillAll idea qs answers suggest noEdits).map (fun out => out.live)
        = (onAutoFillAll idea qs answers suggest noEdits).map
            (fun out => mergeAll answers (runResults suggest out.calls))
    ∧ (onAutoFillAll idea qs answers suggest noEdits).map
          (fun out => (runResults suggest out.calls).length)
        = some k := by
  obtain ⟨e1, e2, e3, e4⟩ :=
    autoFillGo_fail_run suggest qs.length hmatch qs k 0 answers hnd hun hk hsucc hfail
  have hlw := autoFillGo_live_eq_working suggest qs.length qs 0 answers
  have hwm := autoFillGo_working_eq_mergeAll suggest noEdits qs.length qs 0
    answers answers
  rw [onAutoFillAll_eq_some idea qs answers suggest noEdits hidea hne]
  refine ⟨by simpa using e1, by simpa using e2, ?_, ?_, by simpa using e4⟩
  · show some (((0, qs.length)
        :: (autoFillGo suggest noEdits qs.length qs 0 answers answers).progress).getLast?)
      = some (some (k, qs.length))
    rw [e3]
    simp only [Nat.zero_add]
    rw [getLast_progress_trace]
  · show some ((autoFillGo suggest noEdits qs.length qs 0 answers answers).live)
      = some (mergeAll answers (runResults suggest
          (autoFillGo suggest noEdits qs.length qs 0 answers answers).calls))
    rw [hlw, hwm]

/-- A collaborator that fails exactly on question "q3" (schema index 2). -/
def w3suggest : Question → Store → Except String (String × Value) :=
  fun q _ => if q.id = "q3" then Except.error "boom"
             else Except.ok (q.id, .vStr ("v" ++ q.id))

theorem autoFill_failure_halts_witness :
    (onAutoFillAll "idea" w2qs (initAnswers w2qs) w3suggest noEdits).map
        (fun out => out.progress.getLast?)
      = some (some (2, w2qs.length)) :=
  (autoFill_failure_halts "idea" w2qs (initAnswers w2qs) w3suggest 2
    (by decide) (by decide) (by decide) (by decide)
    (fun q st rv h => by
      by_cases hc : q.id = "q3"
      · rw [w3suggest, if_pos hc] at h
        cases h
      · rw [w3suggest, if_neg hc] at h
        cases h
        rfl)
    (by decide)
    (fun j hj st => by
      interval_cases j
      · exact ⟨("q1", .vStr "vq1"), rfl⟩
      · exact ⟨("q2", .vStr "vq2"), rfl⟩)
    (fun st => ⟨"boom", rfl⟩)).2.2.1

/-! ### C9: progress is monotone, total is fixed, success ends at N of N -/

/-- C9: any auto-fill run (whatever the collaborator or concurrent edits do)
reports progress `0, 1, 2, ...` each paired with the fixed total N =
schema length; when every suggestion succeeds, the trace is exactly
`(0, N), (1, N), ..., (N, N)`. -/
theorem autoFill_progress_monotone (idea : String) (qs : List Question)
    (answers : Store)
    (suggest : Question → Store → Except String (String × Value))
    (edits : Nat → List (String × Value))
    (hidea : jsTrim idea ≠ "") (hne : qs ≠ []) :
    (onAutoFillAll idea qs answers suggest edits).map (fun out => out.progress)
        = (onAutoFillAll idea qs answers suggest edits).map
            (fun out => (List.range out.progress.length).map (fun d => (d, qs.length)))
    ∧ ((∀ q st, ∃ rv, suggest q st = Except.ok rv) →
        (onAutoFillAll idea qs answers suggest edits).map (fun out => out.progress)
          = some ((List.range (qs.length + 1)).map (fun d => (d, qs.length)))) := by
  obtain ⟨j, hj, hp, he⟩ :=
    autoFillGo_progress_shape suggest edits qs.length qs 0 answers answers
  rw [onAutoFillAll_eq_some idea qs answers suggest edits hidea hne]
  constructor
  · show some ((0, qs.length)
        :: (autoFillGo suggest edits qs.length qs 0 answers answers).progress)
      = some ((List.range ((0, qs.length)
          :: (autoFillGo suggest edits qs.length qs 0 answers answers).progress).length).map
            (fun d => (d, qs.length)))
    rw [hp]
    simp [List.range_eq_range', List.range'_succ]
  · intro hs
    have hj' : j = qs.length :=
      he (autoFillGo_error_none suggest edits qs.length hs qs 0 answers answers)
    show some ((0, qs.length)
        :: (autoFillGo suggest edits qs.length qs 0 answers answers).progress)
      = some ((List.range (qs.length + 1)).map (fun d => (d, qs.length)))
    rw [hp, hj']
    simp [List.range_eq_range', List.range'_succ]

theorem autoFill_progress_monotone_witness :
    (onAutoFillAll "idea" w2qs (initAnswers w2qs) w2suggest noEdits).map
        (fun out => out.progress)
      = some ((List.range (w2qs.length + 1)).map (fun d => (d, w2qs.length))) :=
  (autoFill_progress_monotone "idea" w2qs (initAnswers w2qs) w2suggest noEdits
      (by decide) (by decide)).2
    (fun q st => ⟨(q.id, .vStr ("v" ++ q.id)), rfl⟩)

/-! ### C10: merges are keyed by the response's id -/

/-- C10: a successful suggestion is merged under the id field of the
collaborator's response; when that id differs from the question being
processed, the response id's slot is written, the question's own slot is
left unchanged, and progress still increments for that question. -/
theorem autoFill_merge_keyed_by_response_id (idea : String) (q : Question)
    (answers : Store)
    (suggest : Question → Store → Except String (String × Value))
    (rid : String) (v : Value)
    (hidea : jsTrim idea ≠ "")
    (hq : hasValueQ q.qtype (lookupStore answers q.id) = false)
    (hsg : suggest q (cleanAnswers answers) = Except.ok (rid, v))
    (hrid : rid ≠ q.id) :
    (onAutoFillAll idea [q] answers suggest noEdits).map
        (fun out => lookupStore out.live rid)
      = some (some v)
    ∧ (onAutoFillAll idea [q] answers suggest noEdits).map
        (fun out => lookupStore out.live q.id)
      = some (lookupStore answers q.id)
    ∧ (onAutoFillAll idea [q] answers suggest noEdits).map (fun out => out.progress)
      = some [(0, 1), (1, 1)]
    ∧ (onAutoFillAll idea [q] answers suggest noEdits).map (fun out => out.error)
      = some none := by
  rw [onAutoFillAll_eq_some idea [q] answers suggest noEdits hidea (by simp)]
  simp only [autoFillGo]
  rw [if_neg (by simp [hq])]
  rw [hsg]
  refine ⟨?_, ?_, by simp, by simp⟩
  · simp [lookupStore_setKey_self]
  · have hne : q.id ≠ rid := fun h => hrid h.symm
    simp [lookupStore_setKey_ne answers rid q.id v hne]

theorem autoFill_merge_keyed_by_response_id_witness :
    (onAutoFillAll "idea" [qText "q1"] [("q1", Value.vStr "")]
        (fun _ _ => Except.ok ("other", Value.vStr "X")) noEdits).map
        (fun out => lookupStore out.live "other")
      = some (some (Value.vStr "X")) :=
  (autoFill_merge_keyed_by_response_id "idea" (qText "q1") [("q1", Value.vStr "")]
    (fun _ _ => Except.ok ("other", Value.vStr "X")) "other" (Value.vStr "X")
    (by decide) (by decide) rfl (by decide)).1

/-! ### C7: mid-run user edits versus the orchestrator's store replacement -/

/-- First question of the concurrency scenario (unanswered at run start). -/
def c7q0 : Question := ⟨"q0", .text, "a", false, none, none⟩

/-- Second question of the concurrency scenario (answered at run start, so
the orchestrator never fills it). -/
def c7q1 : Question := ⟨"q1", .text, "b", false, none, none⟩

/-- C7 counterexample: the user writes "USER" into q1 while auto-fill's call
for q0 (a different question) is in flight; q1 was answered in the run-start
snapshot, so the orchestrator never fills q1 (its only call is for q0).
Yet after q0's fill resolves and is merged, the live store holds q1's
snapshot value "PRE", not "USER": `setAnswers(workingAnswers)` replaced the
whole live store, so the edit to a different question was not preserved. -/
theorem autoFill_edit_lost_counterexample :
    (onAutoFillAll "idea" [c7q0, c7q1]
        [("q0", Value.vStr ""), ("q1", Value.vStr "PRE")]
        (fun q _ => Except.ok (q.id, Value.vStr "SUG"))
        (fun i => if i = 0 then [("q1", Value.vStr "USER")] else [])).map
      (fun out => lookupStore out.live "q1")
      = some (some (Value.vStr "PRE"))
    ∧ (onAutoFillAll "idea" [c7q0, c7q1]
        [("q0", Value.vStr ""), ("q1", Value.vStr "PRE")]
        (fun q _ => Except.ok (q.id, Value.vStr "SUG"))
        (fun i => if i = 0 then [("q1", Value.vStr "USER")] else [])).map
      (fun out => out.calls.map (fun c => c.1.id))
      = some ["q0"]
    ∧ Value.vStr "PRE" ≠ Value.vStr "USER" := by
  refine ⟨?_, ?_, by decide⟩ <;> rfl

/-- C7 (amended): whatever value `u` the user writes into q1 while the
suggestion call for q0 is in flight, once q0's fill resolves the orchestrator
writes its whole working copy (run-start snapshot plus merges) back over the
live store, so q1 reverts to its snapshot value: a mid-run edit is lost as
soon as any later fill resolves, even for a question the orchestrator never
fills — only an edit that no subsequent merge follows survives. -/
theorem autoFill_edit_overwritten_by_merge (idea : String) (u pre sug : Value)
    (hidea : jsTrim idea ≠ "") (hpre : hasValueOpt (some pre) = true) :
    (onAutoFillAll idea [c7q0, c7q1] [("q0", Value.vStr ""), ("q1", pre)]
        (fun q _ => Except.ok (q.id, sug))
        (fun i => if i = 0 then [("q1", u)] else [])).map
      (fun out => lookupStore out.live "q1")
      = some (some pre) := by
  rw [onAutoFillAll_eq_some idea [c7q0, c7q1] [("q0", Value.vStr ""), ("q1", pre)]
    (fun q _ => Except.ok (q.id, sug)) (fun i => if i = 0 then [("q1", u)] else [])
    hidea (by simp)]
  show some (lookupStore (autoFillGo (fun q _ => Except.ok (q.id, sug))
      (fun i => if i = 0 then [("q1", u)] else []) 2 [c7q0, c7q1] 0
      [("q0", Value.vStr ""), ("q1", pre)]
      [("q0", Value.vStr ""), ("q1", pre)]).live "q1")
    = some (some pre)
  simp [autoFillGo, c7q0, c7q1, lookupStore, hasValueQ, setKey, hpre]

theorem autoFill_edit_overwritten_by_merge_witness :
    (onAutoFillAll "idea" [c7q0, c7q1]
        [("q0", Value.vStr ""), ("q1", Value.vStr "OLD")]
        (fun q _ => Except.ok (q.id, Value.vStr "NEW"))
        (fun i => if i = 0 then [("q1", Value.vStr "MINE")] else [])).map
      (fun out => lookupStore out.live "q1")
      = some (some (Value.vStr "OLD")) :=
  autoFill_edit_overwritten_by_merge "idea" (Value.vStr "MINE") (Value.vStr "OLD")
    (Value.vStr "NEW") (by decide) (by decide)

end PromptBuilder
